import Mathlib

/-
Verification development for the SEA-AI/yolov5 repository.

This file gives a shallow embedding, in Lean 4, of the parts of the
repository that the specification talks about:

  * src/horizon/yolotrt/postprocessing.py
      box-coordinate conversions, IoU and greedy non-maximum suppression;
  * src/models/custom.py and src/horizon/models.py
      model assembly (cutoff resolution, classification heads, in-place
      conversion of a detection graph) and the three forward-execution
      loops of the Hydra multi-task model;
  * src/hybrids/inference/ahoy.py
      the to_tf / to_qa presentation adapters.

Machine floats are embedded as rationals; NumPy arrays of four box
coordinates become quadruples of rationals and (N, k) arrays become lists
of rows.  Python code that can raise is embedded in the Except monad.
In-place NumPy mutation is embedded by threading the mutated array as
explicit state: each mutating function takes the current array value and
returns both its Python return value and the state of the array after the
call.
-/

namespace Yolo

/-- A row of four box coordinates, the embedding of one row of an (N, 4)
NumPy array.  Used both for corner-form boxes (x1, y1, x2, y2) and for
center-form boxes (cx, cy, w, h); the source keeps the two conventions in
identically shaped arrays as well. -/
abbrev Vec4 := ℚ × ℚ × ℚ × ℚ

/-- Embedding of cxcywh_to_xyxy (postprocessing.py lines 5-26), per row:
from (center_x, center_y, width, height) to corner form. -/
def cxcywh_to_xyxy (b : Vec4) : Vec4 :=
  let (center_x, center_y, width, height) := b
  (center_x - width / 2, center_y - height / 2,
   center_x + width / 2, center_y + height / 2)

/-- Embedding of xyxy_to_xywh (postprocessing.py lines 29-47), per row.
The source unpacks (top_left_x, top_left_y, bottom_right_x,
bottom_right_y) and returns the array
[top_left_x, top_left_y, width, height]: the first two result entries are
the top-left corner, not the center. -/
def xyxy_to_xywh (b : Vec4) : Vec4 :=
  let (top_left_x, top_left_y, bottom_right_x, bottom_right_y) := b
  (top_left_x, top_left_y,
   bottom_right_x - top_left_x, bottom_right_y - top_left_y)

/-- Embedding of intersection_box (postprocessing.py lines 134-157),
per pair of rows. -/
def intersection_box (target_box : Vec4) (box : Vec4) : Vec4 :=
  let (x1, y1, x2, y2) := target_box
  let (a1, b1, a2, b2) := box
  (max x1 a1, max y1 b1, min x2 a2, min y2 b2)

/-- Embedding of intersection_area (postprocessing.py lines 160-170):
inclusive pixel width/height (the +1), clipped at 0 when negative. -/
def intersection_area (target_box : Vec4) (box : Vec4) : ℚ :=
  let (xx1, yy1, xx2, yy2) := intersection_box target_box box
  max 0 (xx2 - xx1 + 1) * max 0 (yy2 - yy1 + 1)

/-- Embedding of iou (postprocessing.py lines 173-197).  The caller passes
the two areas separately, exactly as the source does.  The source guard
`union[union == 0] += 1e-7` adds the epsilon only to a union that is
exactly zero; the Python rebinding of the name union is rendered here by
the second let. -/
def iou (target_box : Vec4) (box : Vec4) (target_area : ℚ) (area : ℚ) : ℚ :=
  let inter := intersection_area target_box box
  let union := target_area + area - inter
  let unionEps := if union = 0 then union + 1 / 10000000 else union
  inter / unionEps

/-- The per-box area computed inside nms (postprocessing.py line 220):
areas = (x2 - x1) * (y2 - y1), with no +1 term. -/
def nmsArea (b : Vec4) : ℚ :=
  let (x1, y1, x2, y2) := b
  (x2 - x1) * (y2 - y1)

/-- The IoU value nms feeds to the suppression test for indices i and j
(postprocessing.py line 231): iou of the two boxes with the areas
precomputed at line 220.  Out-of-range indices read a zero box, a case the
source never exercises. -/
def nmsIou (bboxes : List Vec4) (i j : Nat) : ℚ :=
  iou (bboxes.getD i (0, 0, 0, 0)) (bboxes.getD j (0, 0, 0, 0))
      (nmsArea (bboxes.getD i (0, 0, 0, 0))) (nmsArea (bboxes.getD j (0, 0, 0, 0)))

/-- One insertion step of a stable ascending sort of indices by score,
used to embed np.argsort(scores) at postprocessing.py line 221.
NumPy's default sort fixes no particular order between equal scores; the
stable order is one admissible choice, and no theorem below depends on the
order chosen between ties. -/
def argsortInsert (s : List ℚ) (i : Nat) : List Nat → List Nat
  | [] => [i]
  | j :: rest =>
    if s.getD i 0 < s.getD j 0 then i :: j :: rest else j :: argsortInsert s i rest

/-- Embedding of np.argsort(scores): indices 0..n-1 sorted by ascending
score. -/
def argsort (s : List ℚ) : List Nat :=
  (List.range s.length).foldl (fun acc i => argsortInsert s i acc) []

/-- The while loop of nms (postprocessing.py lines 225-241) for the
classes=None (agnostic) call.  order is np.argsort(scores)[::-1]; keep is
the set of indices whose mask entry has been set to True.  The loop guard
is faithfully `while order.size > 1`: an order of length exactly one
returns without marking its element.  `order = order[idxs + 1]` with
idxs = np.where(ovr <= iou_thresh)[0] keeps exactly the elements of
order[1:] whose overlap with order[0] is at or below the threshold, in
their old order, which is the filter below.  The fuel argument only
renders the while loop as structural recursion: every iteration shortens
order by at least one, so the initial fuel scores.length is never
exhausted before the loop guard exits. -/
def nmsLoop (bboxes : List Vec4) (iou_thresh : ℚ) :
    Nat → List Nat → Finset Nat → Finset Nat
  | 0, _, keep => keep
  | _ + 1, [], keep => keep
  | _ + 1, [_], keep => keep
  | fuel + 1, i :: rest, keep =>
    nmsLoop bboxes iou_thresh fuel
      (rest.filter fun j => decide (nmsIou bboxes i j ≤ iou_thresh))
      (insert i keep)

/-- Embedding of nms (postprocessing.py lines 200-243) called with
classes=None.  The result is the set of indices marked True in the keep
mask (the mask starts all False at line 223). -/
def nms (bboxes : List Vec4) (scores : List ℚ) (iou_thresh : ℚ) : Finset Nat :=
  nmsLoop bboxes iou_thresh scores.length (argsort scores).reverse ∅

/-- Embedding of NumPy truthiness of an ndarray, as evaluated by
`if classes:` at postprocessing.py line 236.  An empty array is falsy, a
one-element array has the truth value of its element, and an array with
more than one element raises
ValueError: "The truth value of an array with more than one element is
ambiguous.". -/
def npTruthy (classes : List Int) : Except String Bool :=
  match classes with
  | [] => Except.ok false
  | [c] => Except.ok (c ≠ 0)
  | _ => Except.error
      "The truth value of an array with more than one element is ambiguous."

/-- The while loop of nms when a classes array is supplied.  Before the
order update, the source evaluates `if classes:` (line 236); on the truthy
branch it unions idxs with np.where(classes[order[1:]] != classes[i]), so
a survivor is any element of order[1:] with small overlap or a class
different from that of order[0]. -/
def nmsClassesLoop (bboxes : List Vec4) (classes : List Int) (iou_thresh : ℚ) :
    Nat → List Nat → Finset Nat → Except String (Finset Nat)
  | 0, _, keep => Except.ok keep
  | _ + 1, [], keep => Except.ok keep
  | _ + 1, [_], keep => Except.ok keep
  | fuel + 1, i :: rest, keep => do
    let t ← npTruthy classes
    let survivors :=
      if t then
        rest.filter fun j =>
          decide (nmsIou bboxes i j ≤ iou_thresh) ||
          decide (classes.getD j 0 ≠ classes.getD i 0)
      else
        rest.filter fun j => decide (nmsIou bboxes i j ≤ iou_thresh)
    nmsClassesLoop bboxes classes iou_thresh fuel survivors (insert i keep)

/-- Embedding of nms (postprocessing.py lines 200-243) called with a
per-box classes array. -/
def nmsWithClasses (bboxes : List Vec4) (scores : List ℚ) (iou_thresh : ℚ)
    (classes : List Int) : Except String (Finset Nat) :=
  nmsClassesLoop bboxes classes iou_thresh scores.length (argsort scores).reverse ∅

end Yolo

namespace Yolo

/-! Helper lemmas about the suppression loop. -/

lemma intersection_area_comm (a b : Vec4) :
    intersection_area a b = intersection_area b a := by
  obtain ⟨x1, y1, x2, y2⟩ := a
  obtain ⟨a1, b1, a2, b2⟩ := b
  simp only [intersection_area, intersection_box]
  rw [max_comm x1 a1, max_comm y1 b1, min_comm x2 a2, min_comm y2 b2]

lemma iou_comm (a b : Vec4) (A B : ℚ) : iou a b A B = iou b a B A := by
  simp only [iou]
  rw [intersection_area_comm, add_comm A B]

lemma nmsIou_comm (bboxes : List Vec4) (i j : Nat) :
    nmsIou bboxes i j = nmsIou bboxes j i := by
  simp only [nmsIou]
  exact iou_comm _ _ _ _

lemma nmsLoop_subset (bboxes : List Vec4) (thr : ℚ) :
    ∀ (fuel : Nat) (order : List Nat) (keep : Finset Nat),
      nmsLoop bboxes thr fuel order keep ⊆ keep ∪ order.toFinset := by
  intro fuel
  induction fuel with
  | zero => intro order keep; simp [nmsLoop]
  | succ n ih =>
    intro order keep
    match order with
    | [] => simp [nmsLoop]
    | [x] => simp [nmsLoop]
    | i :: j :: rest =>
      refine (ih _ _).trans ?_
      intro a ha
      rcases Finset.mem_union.mp ha with h | h
      · rcases Finset.mem_insert.mp h with h | h
        · subst h
          exact Finset.mem_union_right _ (by simp)
        · exact Finset.mem_union_left _ h
      · have hmem : a ∈ j :: rest := (List.mem_filter.mp (List.mem_toFinset.mp h)).1
        exact Finset.mem_union_right _
          (List.mem_toFinset.mpr (List.mem_cons_of_mem _ hmem))

lemma nmsLoop_pairwise (bboxes : List Vec4) (thr : ℚ) :
    ∀ (fuel : Nat) (order : List Nat) (keep : Finset Nat),
      (∀ k ∈ keep, ∀ j ∈ order, k ≠ j → nmsIou bboxes k j ≤ thr) →
      (∀ a ∈ keep, ∀ b ∈ keep, a ≠ b → nmsIou bboxes a b ≤ thr) →
      ∀ a ∈ nmsLoop bboxes thr fuel order keep,
        ∀ b ∈ nmsLoop bboxes thr fuel order keep,
          a ≠ b → nmsIou bboxes a b ≤ thr := by
  intro fuel
  induction fuel with
  | zero => intro order keep _ h2; simpa [nmsLoop] using h2
  | succ n ih =>
    intro order keep h1 h2
    match order with
    | [] => simpa [nmsLoop] using h2
    | [x] => simpa [nmsLoop] using h2
    | i :: j :: rest =>
      simp only [nmsLoop]
      apply ih
      · -- every already-kept index has small overlap with every survivor
        intro k hk j' hj' hne
        rcases Finset.mem_insert.mp hk with hk | hk
        · subst hk
          have := (List.mem_filter.mp hj').2
          exact of_decide_eq_true this
        · have hj'' : j' ∈ i :: j :: rest :=
            List.mem_cons_of_mem _ (List.mem_of_mem_filter hj')
          exact h1 k hk j' hj'' hne
      · -- the enlarged kept set is still pairwise compatible
        intro a ha b hb hne
        rcases Finset.mem_insert.mp ha with rfl | ha'
        · rcases Finset.mem_insert.mp hb with rfl | hb'
          · exact absurd rfl hne
          · have := h1 b hb' a (List.mem_cons_self _ _) (Ne.symm hne)
            rwa [nmsIou_comm] at this
        · rcases Finset.mem_insert.mp hb with rfl | hb'
          · exact h1 a ha' b (List.mem_cons_self _ _) hne
          · exact h2 a ha' b hb' hne

lemma argsortInsert_length (s : List ℚ) (i : Nat) :
    ∀ l : List Nat, (argsortInsert s i l).length = l.length + 1 := by
  intro l
  induction l with
  | nil => simp [argsortInsert]
  | cons j rest ih =>
    simp only [argsortInsert]
    split <;> simp [ih]

lemma argsort_foldl_length (s : List ℚ) :
    ∀ (l : List Nat) (acc : List Nat),
      (l.foldl (fun acc i => argsortInsert s i acc) acc).length
        = acc.length + l.length := by
  intro l
  induction l with
  | nil => simp
  | cons x xs ih =>
    intro acc
    simp only [List.foldl_cons]
    rw [ih, argsortInsert_length]
    simp only [List.length_cons]
    omega

lemma argsort_length (s : List ℚ) : (argsort s).length = s.length := by
  simp [argsort, argsort_foldl_length]

end Yolo

namespace Yolo

/-! Claim theorems about the detection postprocessor. -/

/-- Claim C1.  The claim says every non-empty input, including a
single-box input, has its highest-scoring box marked kept.  The loop guard
`while order.size > 1` at postprocessing.py line 225 exits as soon as only
one unremoved candidate remains, without marking it: on the one-box input
below the loop body never runs and the returned keep mask is all False,
so the (unique, hence globally highest-scoring) box is not kept. -/
theorem nms_single_box_not_kept :
    nms [((0 : ℚ), 0, 10, 10)] [9 / 10] (3 / 10) = ∅ ∧ (0 : Nat) ∉ nms [((0 : ℚ), 0, 10, 10)] [9 / 10] (3 / 10) := by
  constructor
  · norm_num [nms, nmsLoop, argsort, List.range_succ]
  · norm_num [nms, nmsLoop, argsort, List.range_succ]

/-- Claim C2.  The claim says xyxy_to_xywh inverts cxcywh_to_xyxy.  On the
center-form box (5, 5, 2, 2), cxcywh_to_xyxy yields the corners
(4, 4, 6, 6), and xyxy_to_xywh returns (4, 4, 2, 2): the top-left corner
with width and height, not the original center-form box.  The round trip
moves the first two coordinates from the center to the top-left corner,
contradicting the docstring of xyxy_to_xywh (postprocessing.py line 32),
which announces center form. -/
theorem xyxy_to_xywh_roundtrip_fails :
    xyxy_to_xywh (cxcywh_to_xyxy ((5 : ℚ), 5, 2, 2)) = ((4 : ℚ), 4, 2, 2) ∧
    xyxy_to_xywh (cxcywh_to_xyxy ((5 : ℚ), 5, 2, 2)) ≠ ((5 : ℚ), 5, 2, 2) := by
  constructor
  · norm_num [xyxy_to_xywh, cxcywh_to_xyxy]
  · norm_num [xyxy_to_xywh, cxcywh_to_xyxy]

/-- The IoU the claim C3 describes: intersection and both per-box areas
use the inclusive formula (x2-x1+1)*(y2-y1+1) clipped at 0, with the
epsilon guard on the union.  Written from the claim only, for comparison
with the code's composition. -/
def claimedInclusiveArea (b : Vec4) : ℚ :=
  let (x1, y1, x2, y2) := b
  max 0 (x2 - x1 + 1) * max 0 (y2 - y1 + 1)

/-- The suppression-round IoU as claim C3 states it. -/
def claimedIou (a b : Vec4) : ℚ :=
  let inter := intersection_area a b
  let union := claimedInclusiveArea a + claimedInclusiveArea b - inter
  let unionEps := if union = 0 then union + 1 / 10000000 else union
  inter / unionEps

/-- Claim C3, counterexample.  For two copies of the box (0, 0, 10, 10),
the code's suppression IoU (intersection with the +1 formula, per-box
areas without it: 121 / (100 + 100 - 121)) is 121/79, while the claimed
all-inclusive formula gives 121/121 = 1.  The per-box areas at
postprocessing.py line 220 are (x2-x1)*(y2-y1), without the +1. -/
theorem nms_iou_mixed_area_counterexample :
    nmsIou [((0 : ℚ), 0, 10, 10), ((0 : ℚ), 0, 10, 10)] 0 1 = 121 / 79 ∧
    claimedIou ((0 : ℚ), 0, 10, 10) ((0 : ℚ), 0, 10, 10) = 1 ∧
    nmsIou [((0 : ℚ), 0, 10, 10), ((0 : ℚ), 0, 10, 10)] 0 1
      ≠ claimedIou ((0 : ℚ), 0, 10, 10) ((0 : ℚ), 0, 10, 10) := by
  refine ⟨?_, ?_, ?_⟩
  · norm_num [nmsIou, iou, intersection_area, intersection_box, nmsArea]
  · norm_num [claimedIou, claimedInclusiveArea, intersection_area, intersection_box]
  · norm_num [nmsIou, claimedIou, claimedInclusiveArea, iou,
      intersection_area, intersection_box, nmsArea]

/-- Claim C3 as amended: the intersection area uses the inclusive
(+1, clipped at 0) formula, but each box's own area is the exclusive
(x2-x1)*(y2-y1) of nms line 220, and the epsilon 1e-7 enters the union
only when the union is exactly zero.  The statement equates the code's
composition (intersection_box, intersection_area, iou, with the areas nms
precomputes) with that closed formula, for any two boxes of a suppression
round. -/
theorem nms_iou_closed_form (a b : Vec4) :
    iou a b (nmsArea a) (nmsArea b) =
      (let (x1, y1, x2, y2) := a
       let (a1, b1, a2, b2) := b
       let inter := max 0 (min x2 a2 - max x1 a1 + 1) * max 0 (min y2 b2 - max y1 b1 + 1)
       let union := (x2 - x1) * (y2 - y1) + (a2 - a1) * (b2 - b1) - inter
       inter / (if union = 0 then union + 1 / 10000000 else union)) := by
  obtain ⟨x1, y1, x2, y2⟩ := a
  obtain ⟨a1, b1, a2, b2⟩ := b
  simp [iou, intersection_area, intersection_box, nmsArea]

/-- Claim C4.  With a supplied per-box classes array and at least two
boxes, the first suppression round evaluates `if classes:` on a NumPy
array of more than one element, which raises ValueError before any
class-aware filtering: on the two overlapping boxes below with distinct
classes, the claim expects both boxes kept, but the call produces no
result at all. -/
theorem nms_with_classes_raises :
    nmsWithClasses [((0 : ℚ), 0, 10, 10), ((1 : ℚ), 1, 11, 11)]
        [9 / 10, 8 / 10] (3 / 10) [0, 1]
      = Except.error
          "The truth value of an array with more than one element is ambiguous." := by
  norm_num [nmsWithClasses, nmsClassesLoop, argsort, List.range_succ,
    argsortInsert, npTruthy, Bind.bind, Except.bind]

/-- Claim C5.  For the agnostic call (classes=None): the kept set never
has more elements than there are input boxes, and any two distinct kept
indices have suppression IoU at most iou_thresh (the greedy loop only
lets an index survive into later rounds, and hence be marked kept, if its
overlap with every earlier-kept index is at or below the threshold). -/
theorem nms_card_le_and_pairwise (bboxes : List Vec4) (scores : List ℚ)
    (iou_thresh : ℚ) (hlen : scores.length = bboxes.length) :
    (nms bboxes scores iou_thresh).card ≤ bboxes.length ∧
    ∀ i ∈ nms bboxes scores iou_thresh, ∀ j ∈ nms bboxes scores iou_thresh,
      i ≠ j → nmsIou bboxes i j ≤ iou_thresh := by
  constructor
  · have hsub := nmsLoop_subset bboxes iou_thresh scores.length
      (argsort scores).reverse ∅
    have hcard := Finset.card_le_card hsub
    have : ((∅ : Finset Nat) ∪ (argsort scores).reverse.toFinset).card
        ≤ (argsort scores).reverse.length := by
      simpa using (argsort scores).reverse.toFinset_card_le
    calc (nms bboxes scores iou_thresh).card
        ≤ _ := hcard
      _ ≤ (argsort scores).reverse.length := this
      _ = bboxes.length := by simp [argsort_length, hlen]
  · intro i hi j hj hne
    exact nmsLoop_pairwise bboxes iou_thresh scores.length
      (argsort scores).reverse ∅ (by simp) (by simp) i hi j hj hne

/-- Witness for claim C5 at a concrete input: three boxes, the first two
far apart (both kept), checked against the theorem. -/
theorem nms_card_le_and_pairwise_witness :
    nmsIou [((0 : ℚ), 0, 10, 10), ((100 : ℚ), 100, 110, 110), ((200 : ℚ), 200, 210, 210)]
      0 1 ≤ 3 / 10 := by
  have h := nms_card_le_and_pairwise
    [((0 : ℚ), 0, 10, 10), ((100 : ℚ), 100, 110, 110), ((200 : ℚ), 200, 210, 210)]
    [9 / 10, 8 / 10, 7 / 10] (3 / 10) (by simp)
  refine h.2 0 ?_ 1 ?_ (by decide)
  · norm_num [nms, nmsLoop, argsort, List.range_succ, argsortInsert, nmsIou, iou,
      intersection_area, intersection_box, nmsArea]
  · norm_num [nms, nmsLoop, argsort, List.range_succ, argsortInsert, nmsIou, iou,
      intersection_area, intersection_box, nmsArea]

end Yolo

namespace Yolo

/-! Embedding of the model assembler and the Hydra executor
(src/models/custom.py; src/horizon/models.py repeats the assembler and the
execution loops with the same bodies). -/

/-- The id attribute m.i of a graph node: an integer position for nodes of
the base detection graph, a string name ("c_pitch", "c_theta") for the
appended classification heads.  The source type-puns the two in one
attribute. -/
inductive NodeId where
  | pos (k : Int)
  | name (s : String)
deriving DecidableEq

/-- The dependency attribute m.f: a single integer (-1 meaning "previous
output", otherwise a back-reference position) or a list of positions in
which -1 means the current running value. -/
inductive FSpec where
  | one (j : Int)
  | many (js : List Int)
deriving DecidableEq

/-- Values flowing through the executor: Python None, an opaque tensor,
or the list gathered for a multi-source node.  Tensor contents are the
opaque compute collaborator's business and carry only an identifier
here. -/
inductive Val where
  | vnone
  | tensor (n : Nat)
  | vlist (vs : List Val)

/-- A computation node of the layer graph: id, dependency spec, textual
kind tag (the source dispatches on strings such as
"models.common.Classify"), and its opaque compute capability. -/
structure LNode where
  i : NodeId
  f : FSpec
  type : String
  run : Val → Val

/-- The observable identity of a node: everything except the opaque
compute function (functions have no decidable equality, and no claim
depends on the compute's identity). -/
def nodeSig (m : LNode) : NodeId × FSpec × String := (m.i, m.f, m.type)

/-- The part of a DetectionModel the assembler touches: the ordered node
list model.model and the retain set model.save (a list of integer
positions in the pristine model; the assembler rewrites it with a Python
set, embedded as a deduplicated list, membership being its only use). -/
structure DetModel where
  model : List LNode
  save : List Int

/-- Substring test, embedding the Python expression `pat in s` on
strings. -/
def strHasSub (s pat : String) : Bool :=
  (List.range (s.toList.length + 1)).any fun k =>
    pat.toList.isPrefixOf (s.toList.drop k)

/-- Loop of _find_cutoff (custom.py lines 467-474, horizon/models.py lines
230-237): enumerate the node list and return i - 1 at the first node of
kind "models.common.SPPF".  The ValueError raised when no such node
exists is the failure the spec's error taxonomy calls
ConfigurationError. -/
def findCutoffAux : Nat → List LNode → Except String Int
  | _, [] => Except.error "Could not find cutoff layer for classification heads."
  | i, m :: rest =>
    if m.type = "models.common.SPPF" then Except.ok ((i : Int) - 1)
    else findCutoffAux (i + 1) rest

/-- Embedding of _find_cutoff. -/
def find_cutoff (model : DetModel) : Except String Int :=
  findCutoffAux 0 model.model

/-- The pitch classification head built by _get_classification_heads
(custom.py lines 477-495): a fresh Classify module with i = "c_pitch",
f = cutoff, type = "models.common.Classify".  The source also reads the
input-channel count from the node after the cutoff to size the module;
the compute is opaque here, so channels are not modeled (no claim
mentions them). -/
def c_pitch_head (cutoff : Int) : LNode :=
  { i := NodeId.name "c_pitch", f := FSpec.one cutoff,
    type := "models.common.Classify", run := fun v => v }

/-- The theta classification head, as c_pitch_head. -/
def c_theta_head (cutoff : Int) : LNode :=
  { i := NodeId.name "c_theta", f := FSpec.one cutoff,
    type := "models.common.Classify", run := fun v => v }

/-- Embedding of _get_classification_heads, channels aside. -/
def get_classification_heads (cutoff : Int) : LNode × LNode :=
  (c_pitch_head cutoff, c_theta_head cutoff)

/-- Python list slicing xs[:k], including the negative-k convention. -/
def pySliceTo {α : Type} (xs : List α) (k : Int) : List α :=
  if 0 ≤ k then xs.take k.toNat else xs.take ((xs.length : Int) + k).toNat

/-- Embedding of HorizonModel._from_detection_model (custom.py lines
71-85; same statements at horizon/models.py lines 59-72).  The Python
method mutates its argument in place (the call sites are commented
"# inplace modification"): it rewrites model.save to
set(list(model.save + [cutoff])), truncates model.model to the cutoff
(model.model[: cutoff + 1]) and appends the two classification heads.
The value returned here is the state of the argument object after the
call. -/
def from_detection_model (model : DetModel) (cutoff : Int) : DetModel :=
  let heads := get_classification_heads cutoff
  { model := pySliceTo model.model (cutoff + 1) ++ [heads.1, heads.2]
  , save := (model.save ++ [cutoff]).dedup }

/-- Embedding of Hydra._add_classification_heads (custom.py lines
376-387), the branching assembly: same in-place rewrite of model.save,
but the original node list is kept intact and the heads are appended to
it. -/
def add_classification_heads (model : DetModel) (cutoff : Int) : DetModel :=
  let heads := get_classification_heads cutoff
  { model := model.model ++ [heads.1, heads.2]
  , save := (model.save ++ [cutoff]).dedup }

/-- Python list indexing xs[j] including the negative-index convention;
out of range gives none (an IndexError in Python, never exercised by the
graphs considered here). -/
def pyIndex {α : Type} (xs : List α) (j : Int) : Option α :=
  let k := if j < 0 then (xs.length : Int) + j else j
  if 0 ≤ k then xs.get? k.toNat else Option.none

/-- Reading y[j] in the executor: the stored output, or Python None when
the position was executed but not retained (the executor appends None for
those). -/
def fromCache (y : List (Option Val)) (j : Int) : Val :=
  match pyIndex y j with
  | some (some v) => v
  | _ => Val.vnone

/-- The test `m.f != -1`: false exactly for the single integer -1 (a list
is never equal to the integer -1 in Python). -/
def fIsPrev : FSpec → Bool
  | FSpec.one j => j = -1
  | FSpec.many _ => false

/-- Input resolution for a node whose m.f is not -1 (custom.py lines
395-400 and the identical lines of the other loops): a single integer
fetches y[m.f]; a list gathers [x if j == -1 else y[j] for j in m.f]. -/
def resolveInput (x : Val) (y : List (Option Val)) : FSpec → Val
  | FSpec.one j => fromCache y j
  | FSpec.many js => Val.vlist (js.map fun j => if j = -1 then x else fromCache y j)

/-- The test `"pat" in m.i` as the executor runs it on a node that passed
the Classify type check.  In assembled graphs every Classify node carries
a string id; on an integer id Python would raise TypeError, a case no
assembled graph reaches, rendered false here. -/
def idHasSub (i : NodeId) (pat : String) : Bool :=
  match i with
  | NodeId.pos _ => false
  | NodeId.name s => strHasSub s pat

/-- The test `m.i in self.save`: save holds integer positions, so a
string-id head is never retained. -/
def saveContains (save : List Int) : NodeId → Bool
  | NodeId.pos k => k ∈ save
  | NodeId.name _ => false

/-- The executor's loop state: running value x, retained-output list y,
the two result slots, plus a trace of the (id, kind) of every node whose
compute was invoked, recorded for the execution claims. -/
structure ExecState where
  x : Val
  y : List (Option Val)
  xPitch : Option Val
  xTheta : Option Val
  trace : List (NodeId × String)

/-- One iteration of Hydra._forward_once (custom.py lines 434-456): input
resolution, then the pitch-head branch, the theta-head branch, or the
ordinary compute that updates the running value and appends to y (the
output itself when the position is retained, None otherwise). -/
def forwardStep (save : List Int) (s : ExecState) (m : LNode) : ExecState :=
  let x := if fIsPrev m.f then s.x else resolveInput s.x s.y m.f
  if m.type = "models.common.Classify" ∧ idHasSub m.i "pitch" then
    { s with x := x, xPitch := some (m.run x), trace := s.trace ++ [(m.i, m.type)] }
  else if m.type = "models.common.Classify" ∧ idHasSub m.i "theta" then
    { s with x := x, xTheta := some (m.run x), trace := s.trace ++ [(m.i, m.type)] }
  else
    let out := m.run x
    { s with
      x := out,
      y := s.y ++ [if saveContains save m.i then some out else Option.none],
      trace := s.trace ++ [(m.i, m.type)] }

/-- The skip guard of Hydra._horizon_once (custom.py line 393):
`isinstance(m.i, int) and m.i > self.cutoff`. -/
def skipsPastCutoff (cutoff : Int) : NodeId → Bool
  | NodeId.pos k => cutoff < k
  | NodeId.name _ => false

/-- One iteration of Hydra._horizon_once (custom.py lines 389-413): skip
any node whose integer position exceeds the cutoff, otherwise the body is
that of _forward_once. -/
def horizonStep (cutoff : Int) (save : List Int) (s : ExecState) (m : LNode) :
    ExecState :=
  if skipsPastCutoff cutoff m.i then s else forwardStep save s m

/-- The loop state of Hydra._detect_once, which has no pitch/theta
variables at all. -/
structure DetectState where
  x : Val
  y : List (Option Val)
  trace : List (NodeId × String)

/-- One iteration of Hydra._detect_once (custom.py lines 415-432): skip
every Classify node, otherwise resolve the input and run. -/
def detectStep (save : List Int) (s : DetectState) (m : LNode) : DetectState :=
  if m.type = "models.common.Classify" then s
  else
    let x := if fIsPrev m.f then s.x else resolveInput s.x s.y m.f
    let out := m.run x
    { x := out,
      y := s.y ++ [if saveContains save m.i then some out else Option.none],
      trace := s.trace ++ [(m.i, m.type)] }

/-- Hydra._horizon_once over a whole graph: fresh x_pitch, x_theta and y
on every call. -/
def horizon_once (g : List LNode) (cutoff : Int) (save : List Int) (x0 : Val) :
    ExecState :=
  g.foldl (horizonStep cutoff save) ⟨x0, [], Option.none, Option.none, []⟩

/-- Hydra._detect_once over a whole graph. -/
def detect_once (g : List LNode) (save : List Int) (x0 : Val) : DetectState :=
  g.foldl (detectStep save) ⟨x0, [], []⟩

/-- Hydra._forward_once over a whole graph. -/
def forward_once (g : List LNode) (save : List Int) (x0 : Val) : ExecState :=
  g.foldl (forwardStep save) ⟨x0, [], Option.none, Option.none, []⟩

/-- The shapes Hydra.forward returns (custom.py lines 458-464): x for the
detection task, (x_pitch, x_theta) for the horizon task, and
(x, x_pitch, x_theta) for both. -/
inductive HydraOut where
  | det (x : Val)
  | hor (pitch theta : Option Val)
  | both (x : Val) (pitch theta : Option Val)

/-- Embedding of Hydra.forward: dispatch on the task string. -/
def hydra_forward (g : List LNode) (cutoff : Int) (save : List Int)
    (task : String) (x0 : Val) : HydraOut :=
  if task = "detection" then HydraOut.det (detect_once g save x0).x
  else if task = "horizon" then
    let s := horizon_once g cutoff save x0
    HydraOut.hor s.xPitch s.xTheta
  else
    let s := forward_once g save x0
    HydraOut.both s.x s.xPitch s.xTheta

/-- The detection result slot of a forward output. -/
def detSlot : HydraOut → Option Val
  | HydraOut.det x => some x
  | HydraOut.hor _ _ => Option.none
  | HydraOut.both x _ _ => some x

/-- The pitch result slot of a forward output. -/
def pitchSlot : HydraOut → Option Val
  | HydraOut.det _ => Option.none
  | HydraOut.hor p _ => p
  | HydraOut.both _ p _ => p

/-- The theta result slot of a forward output. -/
def thetaSlot : HydraOut → Option Val
  | HydraOut.det _ => Option.none
  | HydraOut.hor _ t => t
  | HydraOut.both _ _ t => t

end Yolo

namespace Yolo

/-! Helper lemmas about the assembler and the executor. -/

lemma forwardStep_trace (save : List Int) (s : ExecState) (m : LNode) :
    (forwardStep save s m).trace = s.trace ++ [(m.i, m.type)] := by
  simp only [forwardStep]
  split
  · rfl
  · split <;> rfl

lemma horizon_foldl_trace (cutoff : Int) (save : List Int) :
    ∀ (g : List LNode) (s : ExecState),
      (∀ e ∈ s.trace, ∀ k : Int, e.1 = NodeId.pos k → k ≤ cutoff) →
      ∀ e ∈ (g.foldl (horizonStep cutoff save) s).trace, ∀ k : Int,
        e.1 = NodeId.pos k → k ≤ cutoff := by
  intro g
  induction g with
  | nil => intro s h; simpa using h
  | cons m rest ih =>
    intro s h
    simp only [List.foldl_cons]
    apply ih
    intro e he k hk
    by_cases hskip : skipsPastCutoff cutoff m.i = true
    · rw [horizonStep, if_pos hskip] at he
      exact h e he k hk
    · rw [horizonStep, if_neg hskip] at he
      rw [forwardStep_trace] at he
      rcases List.mem_append.mp he with he | he
      · exact h e he k hk
      · have he' : e = (m.i, m.type) := by simpa using he
        subst he'
        simp only at hk
        by_contra hgt
        apply hskip
        rw [hk]
        simp only [skipsPastCutoff, decide_eq_true_eq]
        omega

lemma detectStep_trace (save : List Int) (s : DetectState) (m : LNode) :
    (detectStep save s m).trace
      = if m.type = "models.common.Classify" then s.trace
        else s.trace ++ [(m.i, m.type)] := by
  simp only [detectStep]
  split <;> rfl

lemma detect_foldl_trace (save : List Int) :
    ∀ (g : List LNode) (s : DetectState),
      (∀ e ∈ s.trace, e.2 ≠ "models.common.Classify") →
      ∀ e ∈ (g.foldl (detectStep save) s).trace,
        e.2 ≠ "models.common.Classify" := by
  intro g
  induction g with
  | nil => intro s h; simpa using h
  | cons m rest ih =>
    intro s h
    simp only [List.foldl_cons]
    apply ih
    intro e he
    rw [detectStep_trace] at he
    by_cases hm : m.type = "models.common.Classify"
    · rw [if_pos hm] at he
      exact h e he
    · rw [if_neg hm] at he
      rcases List.mem_append.mp he with he | he
      · exact h e he
      · have he' : e = (m.i, m.type) := by simpa using he
        subst he'
        simpa using hm

lemma findCutoffAux_ok :
    ∀ (nodes : List LNode) (k : Nat) (i : Nat) (m : LNode),
      nodes.get? k = some m → m.type = "models.common.SPPF" →
      (∀ j, j < k → ∀ mj, nodes.get? j = some mj →
        mj.type ≠ "models.common.SPPF") →
      findCutoffAux i nodes = Except.ok ((i : Int) + k - 1) := by
  intro nodes
  induction nodes with
  | nil => intro k i m hget; simp at hget
  | cons m0 rest ih =>
    intro k i m hget htype hfirst
    cases k with
    | zero =>
      have hm : m0 = m := by simpa using hget
      subst hm
      simp [findCutoffAux, htype]
    | succ k' =>
      have h0 : m0.type ≠ "models.common.SPPF" :=
        hfirst 0 (Nat.succ_pos _) m0 rfl
      rw [findCutoffAux, if_neg h0]
      have hget' : rest.get? k' = some m := by simpa using hget
      have hfirst' : ∀ j, j < k' → ∀ mj, rest.get? j = some mj →
          mj.type ≠ "models.common.SPPF" := by
        intro j hj mj hmj
        exact hfirst (j + 1) (by omega) mj (by simpa using hmj)
      rw [ih k' (i + 1) m hget' htype hfirst']
      congr 1
      push_cast
      ring

lemma findCutoffAux_err :
    ∀ (nodes : List LNode) (i : Nat),
      (∀ mj ∈ nodes, mj.type ≠ "models.common.SPPF") →
      findCutoffAux i nodes
        = Except.error "Could not find cutoff layer for classification heads." := by
  intro nodes
  induction nodes with
  | nil => intro i _; rfl
  | cons m0 rest ih =>
    intro i h
    rw [findCutoffAux, if_neg (h m0 (by simp))]
    exact ih (i + 1) (fun mj hm => h mj (by simp [hm]))

/-! Concrete graphs used by witnesses and counterexamples. -/

/-- A plain convolution node at integer position k, with an opaque
compute. -/
def convNode (k : Int) : LNode :=
  { i := NodeId.pos k, f := FSpec.one (-1), type := "models.common.Conv",
    run := fun v => v }

/-- The landmark pooling node at integer position k. -/
def sppfNode (k : Int) : LNode :=
  { i := NodeId.pos k, f := FSpec.one (-1), type := "models.common.SPPF",
    run := fun v => v }

/-- A small base detection model: Conv, SPPF, Conv; position 4 retained (a
stand-in for a pre-existing retain set). -/
def baseGraphEx : DetModel :=
  { model := [convNode 0, sppfNode 1, convNode 2], save := [4] }

/-- A base model with no landmark node. -/
def noLandmarkEx : DetModel :=
  { model := [convNode 0], save := [] }

/-- The node list of a branching (Hydra) assembly of baseGraphEx with
cutoff 0: full base plus the two heads reading from position 0. -/
def hydraGraphEx : List LNode :=
  [convNode 0, sppfNode 1, convNode 2, c_pitch_head 0, c_theta_head 0]

end Yolo

namespace Yolo

/-! Claim theorems about the model assembler and the executor. -/

/-- Claim C6, counterexample.  The claim says assembly leaves the base
graph's node list and retain set unchanged.  Both assembly methods are
called under the comment "# inplace modification" and reassign
model.save and model.model on their argument: after
HorizonModel._from_detection_model with cutoff 0 the base's node list
[Conv, SPPF, Conv] has become [Conv, c_pitch, c_theta] and its retain
set [4] has become a set also holding 0; Hydra._add_classification_heads
likewise appends the heads to the base's own node list and rewrites its
retain set. -/
theorem assembly_mutates_base :
    (from_detection_model baseGraphEx 0).model.map nodeSig
        ≠ baseGraphEx.model.map nodeSig ∧
    (from_detection_model baseGraphEx 0).save ≠ baseGraphEx.save ∧
    (add_classification_heads baseGraphEx 0).model.map nodeSig
        ≠ baseGraphEx.model.map nodeSig ∧
    (add_classification_heads baseGraphEx 0).save ≠ baseGraphEx.save := by
  refine ⟨?_, ?_, ?_, ?_⟩ <;> decide

/-- Claim C6 as amended: assembly is an in-place rewrite of the base
model, not a pure copy.  After the truncating variant
(_from_detection_model) the base object's node list is the
(cutoff+1)-prefix of the original followed by the two classification
heads sourcing from the cutoff, and its retain set holds exactly the old
positions plus the cutoff; the branching variant
(_add_classification_heads) appends the heads to the intact original
list with the same retain-set rewrite.  The "result" is the same mutated
object, so a second assembly from the same base would start from the
already-rewritten graph rather than from an independent copy. -/
theorem assembly_rewrites_in_place (model : DetModel) (cutoff : Int) :
    ((from_detection_model model cutoff).model.map nodeSig
        = (pySliceTo model.model (cutoff + 1)).map nodeSig
          ++ [(NodeId.name "c_pitch", FSpec.one cutoff, "models.common.Classify"),
              (NodeId.name "c_theta", FSpec.one cutoff, "models.common.Classify")]) ∧
    (∀ p : Int, p ∈ (from_detection_model model cutoff).save
        ↔ p ∈ model.save ∨ p = cutoff) ∧
    ((add_classification_heads model cutoff).model.map nodeSig
        = model.model.map nodeSig
          ++ [(NodeId.name "c_pitch", FSpec.one cutoff, "models.common.Classify"),
              (NodeId.name "c_theta", FSpec.one cutoff, "models.common.Classify")]) ∧
    (∀ p : Int, p ∈ (add_classification_heads model cutoff).save
        ↔ p ∈ model.save ∨ p = cutoff) := by
  refine ⟨?_, ?_, ?_, ?_⟩
  · simp [from_detection_model, get_classification_heads, c_pitch_head,
      c_theta_head, nodeSig]
  · intro p
    simp [from_detection_model, List.mem_dedup]
  · simp [add_classification_heads, get_classification_heads, c_pitch_head,
      c_theta_head, nodeSig]
  · intro p
    simp [add_classification_heads, List.mem_dedup]

/-- Claim C7.  Cutoff resolution scans the node list in order: if the
first node of kind "models.common.SPPF" sits at position k the result is
ok (k - 1), and a list without that kind fails with the error the spec's
taxonomy calls ConfigurationError. -/
theorem find_cutoff_first_landmark (model : DetModel) (k : Nat) (m : LNode) :
    (model.model.get? k = some m → m.type = "models.common.SPPF" →
      (∀ j, j < k → ∀ mj, model.model.get? j = some mj →
        mj.type ≠ "models.common.SPPF") →
      find_cutoff model = Except.ok ((k : Int) - 1)) ∧
    ((∀ mj ∈ model.model, mj.type ≠ "models.common.SPPF") →
      find_cutoff model
        = Except.error "Could not find cutoff layer for classification heads.") := by
  constructor
  · intro h1 h2 h3
    have h := findCutoffAux_ok model.model k 0 m h1 h2 h3
    simpa [find_cutoff] using h
  · intro h
    exact findCutoffAux_err model.model 0 h

/-- Witness for claim C7: the SPPF node of baseGraphEx sits at position 1
and resolution returns 0; the landmark-free model fails. -/
theorem find_cutoff_first_landmark_witness :
    find_cutoff baseGraphEx = Except.ok 0 ∧
    find_cutoff noLandmarkEx
      = Except.error "Could not find cutoff layer for classification heads." := by
  constructor
  · have hfirst : ∀ j, j < 1 → ∀ mj, baseGraphEx.model.get? j = some mj →
        mj.type ≠ "models.common.SPPF" := by
      intro j hj mj hmj
      interval_cases j
      have hmj' : convNode 0 = mj := by simpa [baseGraphEx] using hmj
      subst hmj'
      decide
    have h := (find_cutoff_first_landmark baseGraphEx 1 (sppfNode 1)).1
      rfl rfl hfirst
    simpa using h
  · refine (find_cutoff_first_landmark noLandmarkEx 0 (convNode 0)).2 ?_
    intro mj hm
    have hmj' : mj = convNode 0 := by simpa [noLandmarkEx] using hm
    subst hmj'
    decide

/-- Claim C8.  In horizon-only execution, a node whose integer position
exceeds the cutoff is skipped before its compute, its head test or its
cache append: nothing with such a position ever enters the executed
trace.  (The classification heads carry string ids, not positions, and
are exactly what this mode is there to run.) -/
theorem horizon_only_never_runs_tail (g : List LNode) (cutoff : Int)
    (save : List Int) (x0 : Val) :
    ∀ e ∈ (horizon_once g cutoff save x0).trace, ∀ k : Int,
      e.1 = NodeId.pos k → k ≤ cutoff := by
  apply horizon_foldl_trace
  simp

/-- Witness for claim C8: on the branching graph with cutoff 0, the Conv
node at position 0 is in the executed trace and its position is within
the cutoff. -/
theorem horizon_only_never_runs_tail_witness :
    ((NodeId.pos 0, "models.common.Conv") : NodeId × String).1 = NodeId.pos 0 ∧
    (0 : Int) ≤ 0 := by
  refine ⟨rfl, ?_⟩
  exact horizon_only_never_runs_tail hydraGraphEx 0 [0] (Val.tensor 7)
    (NodeId.pos 0, "models.common.Conv") (by decide) 0 rfl

/-- Claim C9.  Forward with task "detection" dispatches to _detect_once,
which returns only the running value: the pitch and theta slots of the
output are empty, and no Classify node is ever executed on the way (they
are skipped at the top of the loop).  Forward with task "horizon"
dispatches to _horizon_once, which returns only (x_pitch, x_theta): the
detection slot is empty.  All loop state (y, the slots) is created fresh
inside each call, so no slot can carry data from a previous call. -/
theorem task_slots_exact (g : List LNode) (cutoff : Int) (save : List Int)
    (x0 : Val) :
    pitchSlot (hydra_forward g cutoff save "detection" x0) = Option.none ∧
    thetaSlot (hydra_forward g cutoff save "detection" x0) = Option.none ∧
    detSlot (hydra_forward g cutoff save "horizon" x0) = Option.none ∧
    ∀ e ∈ (detect_once g save x0).trace, e.2 ≠ "models.common.Classify" := by
  refine ⟨?_, ?_, ?_, ?_⟩
  · rw [hydra_forward, if_pos rfl]; rfl
  · rw [hydra_forward, if_pos rfl]; rfl
  · rw [hydra_forward, if_neg (by decide), if_pos rfl]
    rfl
  · rw [detect_once]
    apply detect_foldl_trace
    simp

/-- Witness for claim C9: on the branching graph, the Conv node at
position 0 is detection-executed and is indeed not a Classify node. -/
theorem task_slots_exact_witness :
    ((NodeId.pos 0, "models.common.Conv") : NodeId × String).2
      ≠ "models.common.Classify" :=
  (task_slots_exact hydraGraphEx 0 [0] (Val.tensor 7)).2.2.2
    (NodeId.pos 0, "models.common.Conv") (by decide)

end Yolo

namespace Yolo

/-! Embedding of the in-place box transforms (postprocessing.py lines
50-131) and the presentation adapters AHOYv5.to_tf / to_qa
(hybrids/inference/ahoy.py lines 276-321).

These NumPy functions mutate their argument arrays through views.  The
embedding threads the underlying per-image detection matrix (an (N, 6)
array: 4 box columns, score, class) as explicit state.  A view is the
list of underlying column indices it selects; det[:, :4] is the view
[0, 1, 2, 3].  Each mutating function takes its view argument plus the
current matrix state and returns its Python return value (for these
functions: the very same view object, i.e. an alias) together with the
matrix state after the call. -/

/-- The embedding of one mutable (N, k) float array. -/
abbrev Mat := List (List ℚ)

/-- One cell of a matrix (row r, column c); 0 outside the array, a case
the theorems exclude by range hypotheses. -/
def cell (m : Mat) (r c : Nat) : ℚ :=
  (m.getD r []).getD c 0

/-- Apply f to the cells of one row whose column index (counted from
base) lies in cols. -/
def updateRowCols (cols : List Nat) (f : ℚ → ℚ) : Nat → List ℚ → List ℚ
  | _, [] => []
  | c, v :: rest =>
    (if c ∈ cols then f v else v) :: updateRowCols cols f (c + 1) rest

/-- Apply f to every cell of the named columns: the embedding of an
in-place NumPy assignment such as a[:, cols] = f(a[:, cols]). -/
def updateCols (m : Mat) (cols : List Nat) (f : ℚ → ℚ) : Mat :=
  m.map (updateRowCols cols f 0)

/-- The underlying columns selected when a view v is itself indexed with
columns idxs (NumPy view-of-view composition). -/
def viewCols (v : List Nat) (idxs : List Nat) : List Nat :=
  idxs.map fun t => v.getD t 0

/-- The values a view currently denotes, row by row (a fancy-indexed read,
which in NumPy copies). -/
def readView (st : Mat) (v : List Nat) : Mat :=
  st.map fun row => v.map fun c => row.getD c 0

/-- One full column of the matrix as values. -/
def colVals (st : Mat) (c : Nat) : List ℚ :=
  st.map fun row => row.getD c 0

/-- The view det[:, :4] that the adapters pass to the transforms. -/
def stdBoxView : List Nat := [0, 1, 2, 3]

/-- Embedding of xyxy_to_xyxyn (postprocessing.py lines 50-70):
bboxes[:, [0, 2]] /= w; bboxes[:, [1, 3]] /= h; return bboxes.  shape is
(height, width).  The function writes through the view into the
underlying matrix and returns the view itself. -/
def xyxy_to_xyxyn (bboxes : List Nat) (shape : ℚ × ℚ) (st : Mat) :
    List Nat × Mat :=
  let (h, w) := shape
  let st1 := updateCols st (viewCols bboxes [0, 2]) fun q => q / w
  let st2 := updateCols st1 (viewCols bboxes [1, 3]) fun q => q / h
  (bboxes, st2)

/-- Embedding of xyxyn_to_xyxy (postprocessing.py lines 73-93):
bboxes[:, [0, 2]] *= w; bboxes[:, [1, 3]] *= h; return bboxes. -/
def xyxyn_to_xyxy (bboxes : List Nat) (shape : ℚ × ℚ) (st : Mat) :
    List Nat × Mat :=
  let (h, w) := shape
  let st1 := updateCols st (viewCols bboxes [0, 2]) fun q => q * w
  let st2 := updateCols st1 (viewCols bboxes [1, 3]) fun q => q * h
  (bboxes, st2)

/-- Embedding of clip_boxes (postprocessing.py lines 128-131): clip the x
columns to [0, width] and the y columns to [0, height], in place; the
Python function returns None, so only the new state comes back. -/
def clip_boxes (boxes : List Nat) (shape : ℚ × ℚ) (st : Mat) : Mat :=
  let st1 := updateCols st (viewCols boxes [0, 2]) fun q => min (max q 0) shape.2
  updateCols st1 (viewCols boxes [1, 3]) fun q => min (max q 0) shape.1

/-- Embedding of scale_boxes (postprocessing.py lines 96-125): subtract
the letterbox padding, divide by the gain, clip to the target shape, all
in place, and return the (mutated) argument. -/
def scale_boxes (bboxes : List Nat) (from_shape to_shape : ℚ × ℚ) (st : Mat) :
    List Nat × Mat :=
  let gain := min (from_shape.1 / to_shape.1) (from_shape.2 / to_shape.2)
  let padx := (from_shape.2 - to_shape.2 * gain) / 2
  let pady := (from_shape.1 - to_shape.1 * gain) / 2
  let st1 := updateCols st (viewCols bboxes [0, 2]) fun q => q - padx
  let st2 := updateCols st1 (viewCols bboxes [1, 3]) fun q => q - pady
  let st3 := updateCols st2 (viewCols bboxes [0, 1, 2, 3]) fun q => q / gain
  (bboxes, clip_boxes bboxes to_shape st3)

/-- The dictionary to_tf builds per image (ahoy.py lines 298-305). -/
structure TFDict where
  detection_boxes : Mat
  detection_scores : List ℚ
  detection_classes : List ℚ
  num_detections : Nat

/-- One image of AHOYv5.to_tf (ahoy.py lines 291-306): the box view
det[:, :4] extracted by to_mode is normalized in place via
xyxy_to_xyxyn, then reordered to [y1, x1, y2, x2] by a fancy-indexed
(copying) read; scores and classes are the column views det[:, 4] and
det[:, 5].  The second component is the detection matrix after the
call: its box columns now hold the normalized values. -/
def to_tf_one (det : Mat) (orig_shape : ℚ × ℚ) : TFDict × Mat :=
  let r := xyxy_to_xyxyn stdBoxView orig_shape det
  let bbs := r.1
  let st1 := r.2
  let reordered := readView st1 (viewCols bbs [1, 0, 3, 2])
  ({ detection_boxes := reordered,
     detection_scores := colVals st1 4,
     detection_classes := colVals st1 5,
     num_detections := reordered.length }, st1)

/-- AHOYv5.to_tf over the per-image detection matrices. -/
def to_tf (dets : List Mat) (orig_shape : ℚ × ℚ) : List TFDict × List Mat :=
  (dets.map fun d => (to_tf_one d orig_shape).1,
   dets.map fun d => (to_tf_one d orig_shape).2)

/-- Python int() truncation toward zero on a rational. -/
def pyInt (q : ℚ) : Int := q.num / q.den

/-- One image of AHOYv5.to_qa (ahoy.py lines 317-320): normalize the box
view in place, then list [b, cls_map[c], int(c), s] per detection. -/
def to_qa_one (det : Mat) (orig_shape : ℚ × ℚ) (cls_map : List String) :
    List (List ℚ × String × Int × ℚ) × Mat :=
  let r := xyxy_to_xyxyn stdBoxView orig_shape det
  let st1 := r.2
  let rows := readView st1 r.1
  let scs := colVals st1 4
  let cls := colVals st1 5
  ((rows.zip (scs.zip cls)).map fun rc =>
      (rc.1, cls_map.getD (pyInt rc.2.2).toNat "", pyInt rc.2.2, rc.2.1),
   st1)

/-- AHOYv5.to_qa (ahoy.py lines 308-321): fails fast when no class map
was supplied, else builds the per-image lists.  The mutated detection
matrices are returned as the second component of the payload. -/
def to_qa (dets : List Mat) (orig_shape : ℚ × ℚ) (cls_map : List String) :
    Except String (List (List (List ℚ × String × Int × ℚ)) × List Mat) :=
  if cls_map = [] then
    Except.error "Class mapping not found. Cannot convert to QA format."
  else
    Except.ok (dets.map fun d => (to_qa_one d orig_shape cls_map).1,
               dets.map fun d => (to_qa_one d orig_shape cls_map).2)

end Yolo

namespace Yolo

/-! Helper lemmas about cell-level effects of the in-place updates. -/

lemma updateRowCols_length (cols : List Nat) (f : ℚ → ℚ) :
    ∀ (row : List ℚ) (base : Nat),
      (updateRowCols cols f base row).length = row.length := by
  intro row
  induction row with
  | nil => intro base; rfl
  | cons v rest ih => intro base; simp [updateRowCols, ih]

lemma updateRowCols_getD (cols : List Nat) (f : ℚ → ℚ) :
    ∀ (row : List ℚ) (base c : Nat), c < row.length →
      (updateRowCols cols f base row).getD c 0
        = if base + c ∈ cols then f (row.getD c 0) else row.getD c 0 := by
  intro row
  induction row with
  | nil => intro base c hc; simp at hc
  | cons v rest ih =>
    intro base c hc
    cases c with
    | zero => simp [updateRowCols]
    | succ c' =>
      have hc' : c' < rest.length := by simpa using hc
      have h := ih (base + 1) c' hc'
      have harith : base + 1 + c' = base + (c' + 1) := by omega
      rw [harith] at h
      simpa [updateRowCols, List.getD_cons_succ] using h

lemma map_getD_lt (g : List ℚ → List ℚ) :
    ∀ (m : Mat) (r : Nat), r < m.length →
      (m.map g).getD r [] = g (m.getD r []) := by
  intro m
  induction m with
  | nil => intro r hr; simp at hr
  | cons row rest ih =>
    intro r hr
    cases r with
    | zero => rfl
    | succ r' =>
      have h := ih r' (by simpa using hr)
      simpa [List.getD_cons_succ] using h

lemma updateCols_length (m : Mat) (cols : List Nat) (f : ℚ → ℚ) :
    (updateCols m cols f).length = m.length := by
  simp [updateCols]

lemma updateCols_row_length (m : Mat) (cols : List Nat) (f : ℚ → ℚ) (r : Nat)
    (hr : r < m.length) :
    ((updateCols m cols f).getD r []).length = (m.getD r []).length := by
  rw [updateCols, map_getD_lt _ m r hr, updateRowCols_length]

lemma cell_updateCols (m : Mat) (cols : List Nat) (f : ℚ → ℚ) (r c : Nat)
    (hr : r < m.length) (hc : c < (m.getD r []).length) :
    cell (updateCols m cols f) r c
      = if c ∈ cols then f (cell m r c) else cell m r c := by
  simp only [cell, updateCols]
  rw [map_getD_lt _ m r hr]
  have h := updateRowCols_getD cols f (m.getD r []) 0 c hc
  simpa using h

lemma cell_two_updates (st : Mat) (f g : ℚ → ℚ) (r c : Nat)
    (hr : r < st.length) (hc : c < (st.getD r []).length) :
    cell (updateCols (updateCols st [0, 2] f) [1, 3] g) r c
      = if c = 0 ∨ c = 2 then f (cell st r c)
        else if c = 1 ∨ c = 3 then g (cell st r c)
        else cell st r c := by
  have hr1 : r < (updateCols st [0, 2] f).length := by
    rw [updateCols_length]; exact hr
  have hc1 : c < ((updateCols st [0, 2] f).getD r []).length := by
    rw [updateCols_row_length st [0, 2] f r hr]; exact hc
  rw [cell_updateCols _ _ _ r c hr1 hc1, cell_updateCols _ _ _ r c hr hc]
  simp only [List.mem_cons, List.not_mem_nil, or_false]
  by_cases h02 : c = 0 ∨ c = 2
  · have h13 : ¬(c = 1 ∨ c = 3) := by rcases h02 with rfl | rfl <;> decide
    simp [h02, h13]
  · by_cases h13 : c = 1 ∨ c = 3 <;> simp [h02, h13]

end Yolo

namespace Yolo

/-- Claim C10.  The box transforms write through their argument views
into the caller's array and return the view itself (an alias); clip_boxes
returns nothing and only leaves the mutation behind.  Concretely, on the
standard det[:, :4] view: after xyxy_to_xyxyn the caller's x cells hold
value/width and the y cells value/height; after clip_boxes they hold the
clipped values; every other column is untouched.  Consequently to_tf
leaves every detection matrix in the normalized state produced by
xyxy_to_xyxyn (the pixel-space boxes are overwritten, not copied), and so
does to_qa whenever a class map is present. -/
theorem box_transforms_mutate_in_place :
    (∀ (v : List Nat) (shape : ℚ × ℚ) (st : Mat),
        (xyxy_to_xyxyn v shape st).1 = v) ∧
    (∀ (v : List Nat) (shape : ℚ × ℚ) (st : Mat),
        (xyxyn_to_xyxy v shape st).1 = v) ∧
    (∀ (v : List Nat) (fs ts : ℚ × ℚ) (st : Mat),
        (scale_boxes v fs ts st).1 = v) ∧
    (∀ (h w : ℚ) (st : Mat) (r c : Nat),
        r < st.length → c < (st.getD r []).length →
        cell (xyxy_to_xyxyn stdBoxView (h, w) st).2 r c
          = if c = 0 ∨ c = 2 then cell st r c / w
            else if c = 1 ∨ c = 3 then cell st r c / h
            else cell st r c) ∧
    (∀ (h w : ℚ) (st : Mat) (r c : Nat),
        r < st.length → c < (st.getD r []).length →
        cell (clip_boxes stdBoxView (h, w) st) r c
          = if c = 0 ∨ c = 2 then min (max (cell st r c) 0) w
            else if c = 1 ∨ c = 3 then min (max (cell st r c) 0) h
            else cell st r c) ∧
    (∀ (dets : List Mat) (shape : ℚ × ℚ),
        (to_tf dets shape).2
          = dets.map fun d => (xyxy_to_xyxyn stdBoxView shape d).2) ∧
    (∀ (dets : List Mat) (shape : ℚ × ℚ) (cls_map : List String),
        cls_map ≠ [] →
        ∃ items, to_qa dets shape cls_map
          = Except.ok
              (items, dets.map fun d => (xyxy_to_xyxyn stdBoxView shape d).2)) := by
  refine ⟨?_, ?_, ?_, ?_, ?_, ?_, ?_⟩
  · intro v shape st; rfl
  · intro v shape st; rfl
  · intro v fs ts st; rfl
  · intro h w st r c hr hc
    have heq : (xyxy_to_xyxyn stdBoxView (h, w) st).2
        = updateCols (updateCols st [0, 2] fun q => q / w) [1, 3]
            fun q => q / h := rfl
    rw [heq, cell_two_updates st _ _ r c hr hc]
  · intro h w st r c hr hc
    have heq : clip_boxes stdBoxView (h, w) st
        = updateCols (updateCols st [0, 2] fun q => min (max q 0) w) [1, 3]
            fun q => min (max q 0) h := rfl
    rw [heq, cell_two_updates st _ _ r c hr hc]
  · intro dets shape; rfl
  · intro dets shape cls_map hne
    refine ⟨dets.map fun d => (to_qa_one d shape cls_map).1, ?_⟩
    rw [to_qa, if_neg hne]
    rfl

/-- Witness for claim C10 at a concrete one-detection matrix
[[10, 20, 30, 40, 9/10, 2]] with original shape (height, width) =
(100, 200): after the to_qa/to_tf normalization the caller's x1 cell
holds 10/200 = 1/20, and to_qa indeed returns the mutated matrix. -/
theorem box_transforms_mutate_in_place_witness :
    cell (xyxy_to_xyxyn stdBoxView ((100 : ℚ), 200)
        [[10, 20, 30, 40, 9 / 10, 2]]).2 0 0 = 1 / 20 ∧
    (∃ items st2, to_qa [[[10, 20, 30, 40, 9 / 10, 2]]] ((100 : ℚ), 200) ["boat"]
        = Except.ok (items, st2)) := by
  constructor
  · have h := box_transforms_mutate_in_place.2.2.2.1 100 200
      [[(10 : ℚ), 20, 30, 40, 9 / 10, 2]] 0 0 (by norm_num) (by norm_num)
    rw [h]
    norm_num [cell]
  · obtain ⟨items, hitems⟩ := box_transforms_mutate_in_place.2.2.2.2.2.2
      [[[(10 : ℚ), 20, 30, 40, 9 / 10, 2]]] ((100 : ℚ), 200) ["boat"] (by decide)
    exact ⟨items, _, hitems⟩

end Yolo
